import Mathlib

/-!
Verification of the price-worker time-series aggregation core.

The definitions below are a shallow embedding of the Cloudflare worker in
src/src/index.ts.  JS numbers are modelled as rationals, timestamps as
epoch milliseconds (integers).  ISO-string parsing and formatting of
timestamps is presentation and is modelled away: a price point carries its
epoch-millisecond timestamp directly, and values arrive already parsed.
Where a JS arithmetic edge produces a non-finite number (division by zero)
the embedding uses an explicit marker, noted at the definition.
-/

namespace PriceWorker

/-- Interval tier as in ALLOWED_INTERVALS = 24h, 7d, 30d (index.ts line 5). -/
inductive Interval where
  | h24
  | d7
  | d30
deriving DecidableEq, Repr

/-- Wire name of an interval, used in cache keys (index.ts line 5, 38). -/
def intervalName : Interval → String
  | Interval.h24 => "24h"
  | Interval.d7 => "7d"
  | Interval.d30 => "30d"

/-- isValidInterval cast modelled as a partial parse (index.ts lines 33-35). -/
def parseInterval : String → Option Interval
  | "24h" => some Interval.h24
  | "7d" => some Interval.d7
  | "30d" => some Interval.d30
  | _ => none

/-- Resampling step in milliseconds per interval (getTimeStep, index.ts
lines 215-226; the default branch is unreachable for a typed Interval). -/
def getTimeStep : Interval → Int
  | Interval.h24 => 5 * 60 * 1000
  | Interval.d7 => 60 * 60 * 1000
  | Interval.d30 => 24 * 60 * 60 * 1000

/-- One provider price point: epoch-ms timestamp and parsed decimal value
(the data entries of AlchemyPriceData, index.ts lines 9-16). -/
structure PricePoint where
  ts : Int
  value : ℚ
deriving DecidableEq, Repr

/-- One aggregated output point (index.ts lines 205-208; the timestamp is
kept in epoch ms rather than re-rendered to ISO). -/
structure AlignedPoint where
  value : ℚ
  timestamp : Int
deriving DecidableEq, Repr

/-- Math.min over a spread list; the empty case (JS +Infinity) never
arises because every loaded series is validated non-empty. -/
def listMin : List Int → Int
  | [] => 0
  | x :: xs => xs.foldl min x

/-- Math.max over a spread list; empty case as in listMin. -/
def listMax : List Int → Int
  | [] => 0
  | x :: xs => xs.foldl max x

/-- reduce((sum, x) => sum + x, 0) (index.ts line 173). -/
def listSum (l : List ℚ) : ℚ :=
  l.foldl (fun sum x => sum + x) 0

/-- Number.isInteger on the rational model of a JS number. -/
def jsIsInteger (q : ℚ) : Bool :=
  q.den == 1

/-- processRatios (index.ts lines 118-131): all-integer inputs are read as
percentages and divided by their raw sum, fractional inputs pass through.
Numeric string parsing is modelled away: the raw ratios arrive as numbers.
In the model a division by a zero sum yields 0 where JS yields NaN; both
fall outside every tolerance around 1. -/
def processRatios (ratios : List ℚ) : List ℚ :=
  let allIntegers := ratios.all jsIsInteger
  if allIntegers then
    let total := listSum ratios
    ratios.map (fun num => num / total)
  else
    ratios

/-- Map.set / acc[key] = value on an association list: an existing key is
overwritten in place, a new key is appended (insertion order preserved,
as for a JS Map or object). -/
def mapSet {κ β : Type} [DecidableEq κ] : List (κ × β) → κ → β → List (κ × β)
  | [], k, v => [(k, v)]
  | (k', v') :: rest, k, v =>
    if k' = k then (k, v) :: rest else (k', v') :: mapSet rest k v

/-- The timestamp-to-value Map built per series (index.ts lines 156-162);
entries iterate in insertion order with later duplicates overwriting. -/
def buildMap (points : List PricePoint) : List (Int × ℚ) :=
  points.foldl (fun m point => mapSet m point.ts point.value) []

/-- The filter predicate t >= minTimestamp && t <= maxTimestamp
(index.ts line 177). -/
def inWindow (lo hi : Int) (kv : Int × ℚ) : Bool :=
  decide (lo ≤ kv.1) && decide (kv.1 ≤ hi)

/-- Key order used by the sort comparator (a, b) => a[0] - b[0]. -/
def keyLe (a b : Int × ℚ) : Prop :=
  a.1 ≤ b.1

instance : DecidableRel keyLe := fun a b => Int.decLe a.1 b.1

/-- Strict key order; the computed available-price lists satisfy it
because Map keys are unique. -/
def keyLt (a b : Int × ℚ) : Prop :=
  a.1 < b.1

instance : DecidableRel keyLt := fun a b => Int.decLt a.1 b.1

/-- availablePrices (index.ts lines 176-178): the map entries restricted
to the common window and sorted ascending by timestamp.  JS sort with a
numeric comparator is modelled by insertion sort on the key order. -/
def availOfMap (m : List (Int × ℚ)) (lo hi : Int) : List (Int × ℚ) :=
  List.insertionSort keyLe (m.filter (inWindow lo hi))

/-- In-window available points of a raw series. -/
def availOf (points : List PricePoint) (lo hi : Int) : List (Int × ℚ) :=
  availOfMap (buildMap points) lo hi

/-- The bracket search loop (index.ts lines 188-194): scan adjacent pairs
of the sorted available points, returning the first pair enclosing t. -/
def searchBracket (t : Int) : List (Int × ℚ) → Option ((Int × ℚ) × (Int × ℚ))
  | p :: q :: rest =>
    if p.1 ≤ t ∧ t ≤ q.1 then some (p, q) else searchBracket t (q :: rest)
  | _ => none

/-- The per-series interpolation (index.ts lines 184-200): lowerPoint and
upperPoint default to the first and last available points, a found bracket
replaces them, then v = v_lo + (v_hi - v_lo) * ratio with ratio = 0 when
the time difference is zero.  The empty case never runs: the caller throws
first (line 180-182). -/
def interpolateAt (avail : List (Int × ℚ)) (t : Int) : ℚ :=
  match avail with
  | [] => 0
  | a :: rest =>
    let pair := (searchBracket t (a :: rest)).getD (a, (a :: rest).getLastD a)
    let lowerPoint := pair.1
    let upperPoint := pair.2
    let timeDiff : ℚ := (upperPoint.1 : ℚ) - (lowerPoint.1 : ℚ)
    let valueDiff : ℚ := upperPoint.2 - lowerPoint.2
    let ratio : ℚ := if timeDiff = 0 then 0 else ((t : ℚ) - (lowerPoint.1 : ℚ)) / timeDiff
    lowerPoint.2 + valueDiff * ratio

/-- Fuel-driven body of the timeline loop.  Each iteration checks the
guard t <= stop, emits t, and advances by step. -/
def genTimelineFuel : Nat → Int → Int → Int → List Int
  | 0, _, _, _ => []
  | fuel + 1, t, stop, step =>
    if t ≤ stop then t :: genTimelineFuel fuel (t + step) stop step else []

/-- The regular timeline loop for (let t = start; t <= stop; t += step)
(index.ts lines 165-169).  The fuel (stop + 1 - start).toNat bounds the
iteration count for every step >= 1 (all getTimeStep values qualify), so
the model agrees with the loop; when start > stop the fuel is zero and the
loop body never runs, matching the guard. -/
def genTimeline (start stop step : Int) : List Int :=
  genTimelineFuel (stop + 1 - start).toNat start stop step

/-- The aligner and weighted aggregator (index.ts lines 147-211), taking
the already-loaded series.  The throw at line 181 becomes an error result;
the thrown message drops the symbol name, which only feeds the text. -/
def weightedAggregate (priceDataList : List (List PricePoint))
    (ratioList : List ℚ) (interval : Interval) : Except String (List AlignedPoint) :=
  let allTimestamps := priceDataList.map (fun data => data.map PricePoint.ts)
  let minTimestamp := listMax (allTimestamps.map listMin)
  let maxTimestamp := listMin (allTimestamps.map listMax)
  let priceMaps := priceDataList.map buildMap
  let timeStep := getTimeStep interval
  let timestamps := genTimeline minTimestamp maxTimestamp timeStep
  timestamps.mapM (fun timestamp => do
    let totalRatio := listSum ratioList
    let weightedValue ← (priceMaps.zip ratioList).foldlM (fun sum pr => do
      let availablePrices := availOfMap pr.1 minTimestamp maxTimestamp
      if availablePrices.isEmpty then
        Except.error "No price data available for symbol"
      else
        pure (sum + interpolateAt availablePrices timestamp * pr.2 / totalRatio)) 0
    pure (AlignedPoint.mk weightedValue timestamp))

/-- A per-symbol load outcome: the cache-or-fetch path of index.ts lines
136-145 collapsed to one fallible result per symbol (its cache-level
behaviour is modelled separately below). -/
def LoadOracle : Type :=
  String → Interval → Except String (List PricePoint)

/-- Promise.all over the per-symbol loads.  JS launches every load before
the join; which rejection surfaces is timing-dependent, here the leftmost. -/
def loadAll (oracle : LoadOracle) (symbolList : List String) (interval : Interval) :
    Except String (List (List PricePoint)) :=
  symbolList.mapM (fun symbol => oracle symbol interval)

/-- getWeightedPrices (index.ts lines 134-212): load every series then
align and aggregate. -/
def getWeightedPrices (oracle : LoadOracle) (symbolList : List String)
    (ratioList : List ℚ) (interval : Interval) : Except String (List AlignedPoint) :=
  match loadAll oracle symbolList interval with
  | Except.error e => Except.error e
  | Except.ok priceDataList => weightedAggregate priceDataList ratioList interval

/-! ### Route handlers

Each handler mirrors one itty-router route.  A handler returns its HTTP
outcome (200 payload, 400 client error, 500 server error) together with
the list of per-symbol load requests it issued: the source fires one
cache-or-fetch load per symbol (Promise.all) exactly when it reaches the
getWeightedPrices or batch fan-out, so early validation returns carry an
empty load log.  The query record holds already-split parameter lists;
comma-splitting and Number parsing of the raw query strings is
presentation.  The response-envelope timestamp (new Date()) is wall-clock
presentation and is omitted. -/

/-- Parsed query parameters of the aggregate, pnl and batch routes; a
missing parameter is none. -/
structure Query where
  symbols : Option (List String)
  ratios : Option (List ℚ)
  interval : Option String
deriving DecidableEq, Repr

/-- HTTP outcome of a route: 200 with payload, 400, or 500. -/
inductive RouteResult (α : Type) where
  | ok (payload : α)
  | clientError (msg : String)
  | serverError (msg : String)
deriving DecidableEq, Repr

/-- Payload of a 200 aggregate response (index.ts lines 327-333). -/
structure AggPayload where
  data : List AlignedPoint
  interval : Interval
deriving DecidableEq, Repr

/-- Payload of a 200 pnl response (index.ts lines 363-372).  pnl is none
when the JS quotient is non-finite (zero baseline gives Infinity or NaN). -/
structure PnlPayload where
  pnl : Option ℚ
  firstValue : ℚ
  lastValue : ℚ
  firstTimestamp : Int
  lastTimestamp : Int
deriving DecidableEq, Repr

/-- Payload of a 200 batch response (index.ts lines 425-428). -/
structure BatchPayload where
  values : List (String × ℚ)
  timestamp : Int
deriving DecidableEq, Repr

/-- The load requests issued by one multi-symbol fan-out. -/
def issuedLoads (symbolList : List String) (interval : Interval) :
    List (String × Interval) :=
  symbolList.map (fun symbol => (symbol, interval))

/-- symbol.toLowerCase() modelled by lowering each character of the
string (String.toLower is the same map expressed through the byte-level
String.map, which does not reduce inside proofs). -/
def jsToLower (s : String) : String :=
  String.mk (s.data.map Char.toLower)

instance {ε α : Type} [DecidableEq ε] [DecidableEq α] : DecidableEq (Except ε α) :=
  fun a b =>
    match a, b with
    | Except.error e, Except.error f =>
      if h : e = f then Decidable.isTrue (h ▸ rfl)
      else Decidable.isFalse (fun hc => h (Except.error.inj hc))
    | Except.error _, Except.ok _ => Decidable.isFalse (fun hc => Except.noConfusion hc)
    | Except.ok _, Except.error _ => Decidable.isFalse (fun hc => Except.noConfusion hc)
    | Except.ok x, Except.ok y =>
      if h : x = y then Decidable.isTrue (h ▸ rfl)
      else Decidable.isFalse (fun hc => h (Except.ok.inj hc))

/-- The aggregate route (index.ts lines 303-337): validate presence,
process ratios, check the count match, validate the interval (defaulting
to 24h), then load and aggregate. -/
def aggregateHandler (q : Query) (oracle : LoadOracle) :
    RouteResult AggPayload × List (String × Interval) :=
  match q.symbols, q.ratios with
  | some symbolList, some rawRatios =>
    let ratioList := processRatios rawRatios
    if symbolList.length ≠ ratioList.length then
      (RouteResult.clientError "Number of symbols must match number of ratios", [])
    else
      match parseInterval (q.interval.getD "24h") with
      | none =>
        (RouteResult.clientError "Invalid interval. Allowed values: 24h, 7d, 30d", [])
      | some interval =>
        match getWeightedPrices oracle symbolList ratioList interval with
        | Except.ok weightedData =>
          (RouteResult.ok (AggPayload.mk weightedData interval), issuedLoads symbolList interval)
        | Except.error e =>
          (RouteResult.serverError e, issuedLoads symbolList interval)
  | _, _ => (RouteResult.clientError "Missing required parameters: symbols and ratios", [])

/-- The pnl route (index.ts lines 340-382).  It destructures only symbols
and ratios, never reading the interval parameter, and aggregates over the
hard-coded 30d interval.  An empty aggregate makes weightedData[0].value
throw a TypeError, caught by the route as a 500; a zero first value makes
the JS division non-finite, modelled as pnl = none inside a 200. -/
def pnlHandler (q : Query) (oracle : LoadOracle) :
    RouteResult PnlPayload × List (String × Interval) :=
  match q.symbols, q.ratios with
  | some symbolList, some rawRatios =>
    let ratioList := processRatios rawRatios
    if symbolList.length ≠ ratioList.length then
      (RouteResult.clientError "Number of symbols must match number of ratios", [])
    else
      match getWeightedPrices oracle symbolList ratioList Interval.d30 with
      | Except.error e =>
        (RouteResult.serverError e, issuedLoads symbolList Interval.d30)
      | Except.ok weightedData =>
        match weightedData with
        | [] =>
          (RouteResult.serverError "Cannot read properties of undefined",
            issuedLoads symbolList Interval.d30)
        | first :: rest =>
          let last := (first :: rest).getLastD first
          let pnl : Option ℚ :=
            if first.value = 0 then none
            else some ((last.value - first.value) / first.value * 100)
          (RouteResult.ok
            (PnlPayload.mk pnl first.value last.value first.timestamp last.timestamp),
            issuedLoads symbolList Interval.d30)
  | _, _ => (RouteResult.clientError "Missing required parameters: symbols and ratios", [])

/-- The batch route (index.ts lines 385-442): load every series, report
the maximum of the positional last timestamps, and key each positional
last value by the lowercased symbol.  An empty loaded series would make
data[data.length - 1].timestamp throw, caught as a 500. -/
def batchHandler (q : Query) (oracle : LoadOracle) :
    RouteResult BatchPayload × List (String × Interval) :=
  match q.symbols with
  | none => (RouteResult.clientError "Missing required parameter: symbols", [])
  | some symbolList =>
    match parseInterval (q.interval.getD "24h") with
    | none =>
      (RouteResult.clientError "Invalid interval. Allowed values: 24h, 7d, 30d", [])
    | some interval =>
      match loadAll oracle symbolList interval with
      | Except.error e => (RouteResult.serverError e, issuedLoads symbolList interval)
      | Except.ok priceDataList =>
        if priceDataList.any List.isEmpty then
          (RouteResult.serverError "Cannot read properties of undefined",
            issuedLoads symbolList interval)
        else
          let latestTimestamp := listMax (priceDataList.map
            (fun data => (data.getLastD (PricePoint.mk 0 0)).ts))
          let values := (symbolList.zip priceDataList).foldl
            (fun acc sp => mapSet acc (jsToLower sp.1)
              ((sp.2.getLastD (PricePoint.mk 0 0)).value)) []
          (RouteResult.ok (BatchPayload.mk values latestTimestamp),
            issuedLoads symbolList interval)

/-! ### Cache model

The KV cache and the code paths that write it (index.ts lines 61-77 with
the four call sites at 138-142, 268-274, 404-408, 464-473).  A cache is an
association list from key string to stored series; the upstream fetch
outcome (network plus payload) is a parameter.  fetchPriceFromAlchemy
validates that the fetched data is non-empty before returning it (lines
110-114), and every setCachedPrice call stores a value returned by that
fetch, so cached series are always non-empty. -/

/-- generateCacheKey (index.ts lines 37-39). -/
def generateCacheKey (symbol : String) (interval : Interval) : String :=
  "price:" ++ symbol ++ ":" ++ intervalName interval

/-- The KV namespace contents. -/
abbrev Cache : Type :=
  List (String × List PricePoint)

/-- getCachedPrice on the model store (index.ts lines 61-68). -/
def cacheGet (c : Cache) (key : String) : Option (List PricePoint) :=
  List.lookup key c

/-- setCachedPrice: a KV put overwrites the key (index.ts lines 71-77). -/
def cachePut (c : Cache) (key : String) (value : List PricePoint) : Cache :=
  mapSet c key value

/-- fetchPriceFromAlchemy (index.ts lines 80-115): the HTTP outcome is the
upstream parameter, and an ok payload with zero points is rejected before
it is returned (lines 110-112). -/
def fetchPriceFromAlchemy (upstream : Except String (List PricePoint)) :
    Except String (List PricePoint) :=
  match upstream with
  | Except.error e => Except.error e
  | Except.ok data => if data.isEmpty then
      Except.error "No price data available for symbol in the specified time range"
    else Except.ok data

/-- The cache-or-fetch-then-cache load path shared by the price, aggregate
and batch routes (index.ts lines 138-142, 268-274, 404-408). -/
def loadSeries (c : Cache) (symbol : String) (interval : Interval)
    (upstream : Except String (List PricePoint)) :
    Except String (List PricePoint × Cache) :=
  match cacheGet c (generateCacheKey symbol interval) with
  | some priceData => Except.ok (priceData, c)
  | none =>
    match fetchPriceFromAlchemy upstream with
    | Except.error e => Except.error e
    | Except.ok priceData =>
      Except.ok (priceData, cachePut c (generateCacheKey symbol interval) priceData)

/-- One per-symbol step of the scheduled warm-cache task (index.ts lines
459-474): fetch then cache, swallowing failures. -/
def refreshSeries (c : Cache) (symbol : String) (interval : Interval)
    (upstream : Except String (List PricePoint)) : Cache :=
  match fetchPriceFromAlchemy upstream with
  | Except.error _ => c
  | Except.ok priceData => cachePut c (generateCacheKey symbol interval) priceData

/-- Any event that can touch the cache: a route-driven load or a
scheduled refresh, with its upstream outcome. -/
inductive CacheOp where
  | load (symbol : String) (interval : Interval) (upstream : Except String (List PricePoint))
  | refresh (symbol : String) (interval : Interval) (upstream : Except String (List PricePoint))

/-- Effect of one event on the cache (a failed load leaves it unchanged). -/
def runOp (c : Cache) : CacheOp → Cache
  | CacheOp.load symbol interval upstream =>
    match loadSeries c symbol interval upstream with
    | Except.ok pc => pc.2
    | Except.error _ => c
  | CacheOp.refresh symbol interval upstream => refreshSeries c symbol interval upstream

/-- The cache after a sequence of events. -/
def runOps (c : Cache) (ops : List CacheOp) : Cache :=
  ops.foldl runOp c

/-- Cache well-formedness: every stored series has at least one point. -/
def CacheWF (c : Cache) : Prop :=
  ∀ kv ∈ c, kv.2 ≠ ([] : List PricePoint)

instance : IsTotal (Int × ℚ) keyLe :=
  ⟨fun a b => Int.le_total a.1 b.1⟩

instance : IsTrans (Int × ℚ) keyLe :=
  ⟨fun _ _ _ hab hbc => le_trans hab hbc⟩

/-- The linear formula through two points, evaluated at t; with equal
timestamps it returns the first value.  This names what the source
computes when no bracketing pair exists and the defaults (first and last
in-window points) are used: a chord extrapolation, not a clamp. -/
def extrapolateChord (p q : Int × ℚ) (t : Int) : ℚ :=
  let timeDiff : ℚ := (q.1 : ℚ) - (p.1 : ℚ)
  let ratio : ℚ := if timeDiff = 0 then 0 else ((t : ℚ) - (p.1 : ℚ)) / timeDiff
  p.2 + (q.2 - p.2) * ratio

/-! ### Association-map lemmas -/

theorem mem_mapSet {κ β : Type} [DecidableEq κ] {k : κ} {v : β} {kv : κ × β} :
    ∀ {m : List (κ × β)}, kv ∈ mapSet m k v → kv = (k, v) ∨ kv ∈ m := by
  intro m
  induction m with
  | nil => intro h; simp only [mapSet, List.mem_singleton] at h; exact Or.inl h
  | cons hd tl ih =>
    obtain ⟨k', v'⟩ := hd
    intro h
    by_cases hk : k' = k
    · simp only [mapSet, if_pos hk] at h
      rcases List.mem_cons.mp h with h1 | h2
      · exact Or.inl h1
      · exact Or.inr (List.mem_cons_of_mem _ h2)
    · simp only [mapSet, if_neg hk] at h
      rcases List.mem_cons.mp h with h1 | h2
      · exact Or.inr (h1 ▸ List.mem_cons_self _ _)
      · rcases ih h2 with h3 | h4
        · exact Or.inl h3
        · exact Or.inr (List.mem_cons_of_mem _ h4)

theorem mapSet_ne_nil {κ β : Type} [DecidableEq κ] (m : List (κ × β)) (k : κ) (v : β) :
    mapSet m k v ≠ [] := by
  cases m with
  | nil => simp [mapSet]
  | cons hd tl =>
    obtain ⟨k', v'⟩ := hd
    by_cases hk : k' = k <;> simp [mapSet, hk]

theorem mapSet_pairwise {κ β : Type} [DecidableEq κ] {m : List (κ × β)}
    (hm : m.Pairwise (fun a b => a.1 ≠ b.1)) (k : κ) (v : β) :
    (mapSet m k v).Pairwise (fun a b => a.1 ≠ b.1) := by
  induction m with
  | nil => simp [mapSet]
  | cons hd tl ih =>
    obtain ⟨k', v'⟩ := hd
    rw [List.pairwise_cons] at hm
    obtain ⟨h1, h2⟩ := hm
    by_cases hk : k' = k
    · simp only [mapSet, if_pos hk]
      rw [List.pairwise_cons]
      exact ⟨fun b hb => hk ▸ h1 b hb, h2⟩
    · simp only [mapSet, if_neg hk]
      rw [List.pairwise_cons]
      refine ⟨fun b hb => ?_, ih h2⟩
      rcases mem_mapSet hb with h3 | h4
      · subst h3; exact hk
      · exact h1 b h4

theorem foldl_buildMap_mem {points : List PricePoint} :
    ∀ {m0 : List (Int × ℚ)} {kv : Int × ℚ},
      kv ∈ points.foldl (fun m point => mapSet m point.ts point.value) m0 →
      kv ∈ m0 ∨ kv.1 ∈ points.map PricePoint.ts := by
  induction points with
  | nil => intro m0 kv h; exact Or.inl (by simpa using h)
  | cons p ps ih =>
    intro m0 kv h
    simp only [List.foldl_cons] at h
    rcases ih h with h1 | h2
    · rcases mem_mapSet h1 with h3 | h4
      · subst h3; right; simp
      · exact Or.inl h4
    · right; simp [h2]

theorem buildMap_key_mem {points : List PricePoint} {kv : Int × ℚ}
    (h : kv ∈ buildMap points) : kv.1 ∈ points.map PricePoint.ts := by
  rcases foldl_buildMap_mem h with h1 | h2
  · simp at h1
  · exact h2

theorem buildMap_pairwise (points : List PricePoint) :
    (buildMap points).Pairwise (fun a b => a.1 ≠ b.1) := by
  have gen : ∀ (ps : List PricePoint) (m0 : List (Int × ℚ)),
      m0.Pairwise (fun a b => a.1 ≠ b.1) →
      (ps.foldl (fun m point => mapSet m point.ts point.value) m0).Pairwise
        (fun a b => a.1 ≠ b.1) := by
    intro ps
    induction ps with
    | nil => intro m0 h; simpa using h
    | cons p ps ih =>
      intro m0 h
      simp only [List.foldl_cons]
      exact ih _ (mapSet_pairwise h _ _)
  exact gen points [] (by simp)

theorem buildMap_ne_nil {points : List PricePoint} (h : points ≠ []) :
    buildMap points ≠ [] := by
  have gen : ∀ (ps : List PricePoint) (m0 : List (Int × ℚ)), m0 ≠ [] →
      ps.foldl (fun m point => mapSet m point.ts point.value) m0 ≠ [] := by
    intro ps
    induction ps with
    | nil => intro m0 h; simpa using h
    | cons p ps ih =>
      intro m0 _
      simp only [List.foldl_cons]
      exact ih _ (mapSet_ne_nil _ _ _)
  cases points with
  | nil => exact absurd rfl h
  | cons p ps =>
    show (p :: ps).foldl (fun m point => mapSet m point.ts point.value) [] ≠ []
    simp only [List.foldl_cons]
    exact gen ps _ (mapSet_ne_nil _ _ _)

/-! ### Math.min and Math.max lemmas -/

theorem foldl_min_le_init (l : List Int) (a : Int) : l.foldl min a ≤ a := by
  induction l generalizing a with
  | nil => exact le_refl a
  | cons x l ih => exact le_trans (ih (min a x)) (min_le_left a x)

theorem foldl_min_le_mem {l : List Int} {x : Int} (h : x ∈ l) (a : Int) :
    l.foldl min a ≤ x := by
  induction l generalizing a with
  | nil => cases h
  | cons y l ih =>
    rcases List.mem_cons.mp h with h1 | h2
    · subst h1
      exact le_trans (foldl_min_le_init l (min a x)) (min_le_right a x)
    · exact ih h2 (min a y)

theorem listMin_le {l : List Int} {x : Int} (h : x ∈ l) : listMin l ≤ x := by
  cases l with
  | nil => cases h
  | cons y l =>
    rcases List.mem_cons.mp h with h1 | h2
    · subst h1; exact foldl_min_le_init l x
    · exact foldl_min_le_mem h2 y

theorem init_le_foldl_max (l : List Int) (a : Int) : a ≤ l.foldl max a := by
  induction l generalizing a with
  | nil => exact le_refl a
  | cons x l ih => exact le_trans (le_max_left a x) (ih (max a x))

theorem mem_le_foldl_max {l : List Int} {x : Int} (h : x ∈ l) (a : Int) :
    x ≤ l.foldl max a := by
  induction l generalizing a with
  | nil => cases h
  | cons y l ih =>
    rcases List.mem_cons.mp h with h1 | h2
    · subst h1
      exact le_trans (le_max_right a x) (init_le_foldl_max l (max a x))
    · exact ih h2 (max a y)

theorem le_listMax {l : List Int} {x : Int} (h : x ∈ l) : x ≤ listMax l := by
  cases l with
  | nil => cases h
  | cons y l =>
    rcases List.mem_cons.mp h with h1 | h2
    · subst h1; exact init_le_foldl_max l x
    · exact mem_le_foldl_max h2 y

/-! ### listSum lemmas -/

theorem foldl_add_shift (l : List ℚ) (a : ℚ) :
    l.foldl (fun sum x => sum + x) a = a + l.foldl (fun sum x => sum + x) 0 := by
  induction l generalizing a with
  | nil => simp
  | cons x l ih =>
    simp only [List.foldl_cons]
    rw [ih (a + x), ih (0 + x)]
    ring

theorem listSum_cons (x : ℚ) (l : List ℚ) : listSum (x :: l) = x + listSum l := by
  show (x :: l).foldl (fun sum y => sum + y) 0 = x + listSum l
  simp only [List.foldl_cons]
  rw [foldl_add_shift]
  show 0 + x + listSum l = x + listSum l
  ring

theorem listSum_map_div (l : List ℚ) (c : ℚ) :
    listSum (l.map (fun x => x / c)) = listSum l / c := by
  induction l with
  | nil => simp [listSum]
  | cons x l ih =>
    simp only [List.map_cons]
    rw [listSum_cons, listSum_cons, ih, add_div]

/-! ### Timeline and monadic-map lemmas -/

theorem genTimeline_eq_nil {start stop step : Int} (h : stop < start) :
    genTimeline start stop step = [] := by
  unfold genTimeline
  have hz : (stop + 1 - start).toNat = 0 := by omega
  rw [hz]
  rfl

theorem mapM_eq_ok_map {γ δ : Type} (l : List γ) (f : γ → Except String δ) (g : γ → δ)
    (h : ∀ x ∈ l, f x = Except.ok (g x)) : l.mapM f = Except.ok (l.map g) := by
  induction l with
  | nil => rfl
  | cons x xs ih =>
    rw [List.mapM_cons, h x (List.mem_cons_self _ _),
      ih (fun y hy => h y (List.mem_cons_of_mem _ hy))]
    rfl

/-! ### Sortedness of the available-price lists -/

theorem availOfMap_pairwise {m : List (Int × ℚ)} (lo hi : Int)
    (hm : m.Pairwise (fun a b => a.1 ≠ b.1)) :
    (availOfMap m lo hi).Pairwise keyLt := by
  have hf : (m.filter (inWindow lo hi)).Pairwise (fun a b => a.1 ≠ b.1) :=
    List.Pairwise.sublist (List.filter_sublist m) hm
  have hs : (availOfMap m lo hi).Pairwise keyLe :=
    List.sorted_insertionSort keyLe (m.filter (inWindow lo hi))
  have hperm : List.Perm (availOfMap m lo hi) (m.filter (inWindow lo hi)) :=
    List.perm_insertionSort keyLe (m.filter (inWindow lo hi))
  have hnd : (availOfMap m lo hi).Pairwise (fun a b => a.1 ≠ b.1) :=
    (hperm.pairwise_iff (fun hab => Ne.symm hab)).mpr hf
  exact (hs.and hnd).imp (fun hab => lt_of_le_of_ne hab.1 hab.2)

theorem availOf_pairwise (points : List PricePoint) (lo hi : Int) :
    (availOf points lo hi).Pairwise keyLt :=
  availOfMap_pairwise lo hi (buildMap_pairwise points)

/-! ### Bracket search and interpolation lemmas -/

theorem pairwise_keyLt_head_le {a : Int × ℚ} {rest : List (Int × ℚ)}
    (hp : (a :: rest).Pairwise keyLt) : ∀ kv ∈ a :: rest, a.1 ≤ kv.1 := by
  intro kv hkv
  rcases List.mem_cons.mp hkv with h1 | h2
  · rw [h1]
  · exact le_of_lt ((List.pairwise_cons.mp hp).1 kv h2)

theorem pairwise_keyLt_le_getLastD :
    ∀ {avail : List (Int × ℚ)}, avail.Pairwise keyLt →
      ∀ kv ∈ avail, ∀ d : Int × ℚ, kv.1 ≤ (avail.getLastD d).1 := by
  intro avail
  induction avail with
  | nil => intro _ kv hkv; cases hkv
  | cons a rest ih =>
    intro hp kv hkv d
    rw [List.getLastD_cons]
    cases rest with
    | nil =>
      have h1 : kv = a := by simpa using hkv
      rw [h1]
      rfl
    | cons b l =>
      rcases List.mem_cons.mp hkv with h1 | h2
      · have hab : a.1 < b.1 := (List.pairwise_cons.mp hp).1 b (List.mem_cons_self _ _)
        have hb : b.1 ≤ ((b :: l).getLastD a).1 :=
          ih (List.pairwise_cons.mp hp).2 b (List.mem_cons_self _ _) a
        rw [h1]
        exact le_trans (le_of_lt hab) hb
      · exact ih (List.pairwise_cons.mp hp).2 kv h2 a

theorem searchBracket_none_of_forall_lt {t : Int} :
    ∀ {avail : List (Int × ℚ)}, (∀ kv ∈ avail, t < kv.1) →
      searchBracket t avail = none := by
  intro avail
  induction avail with
  | nil => intro _; rfl
  | cons a rest ih =>
    intro h
    cases rest with
    | nil => rfl
    | cons b l =>
      have hc : ¬(a.1 ≤ t ∧ t ≤ b.1) := by
        intro hc
        exact absurd hc.1 (not_le.mpr (h a (List.mem_cons_self _ _)))
      simp only [searchBracket, if_neg hc]
      exact ih (fun kv hkv => h kv (List.mem_cons_of_mem _ hkv))

theorem searchBracket_none_of_forall_gt {t : Int} :
    ∀ {avail : List (Int × ℚ)}, (∀ kv ∈ avail, kv.1 < t) →
      searchBracket t avail = none := by
  intro avail
  induction avail with
  | nil => intro _; rfl
  | cons a rest ih =>
    intro h
    cases rest with
    | nil => rfl
    | cons b l =>
      have hc : ¬(a.1 ≤ t ∧ t ≤ b.1) := by
        intro hc
        exact absurd hc.2 (not_le.mpr (h b (List.mem_cons_of_mem _ (List.mem_cons_self _ _))))
      simp only [searchBracket, if_neg hc]
      exact ih (fun kv hkv => h kv (List.mem_cons_of_mem _ hkv))

theorem searchBracket_found {t : Int} {v : ℚ} :
    ∀ {avail : List (Int × ℚ)}, avail.Pairwise keyLt → (t, v) ∈ avail →
      2 ≤ avail.length →
      ∃ p q, searchBracket t avail = some (p, q) ∧
        (p = (t, v) ∨ (q = (t, v) ∧ p.1 < q.1)) := by
  intro avail
  induction avail with
  | nil => intro _ hm; cases hm
  | cons a tail ih =>
    intro hp hm hlen
    cases tail with
    | nil => simp at hlen
    | cons b l =>
      have hab : a.1 < b.1 := (List.pairwise_cons.mp hp).1 b (List.mem_cons_self _ _)
      by_cases hcond : a.1 ≤ t ∧ t ≤ b.1
      · refine ⟨a, b, by simp only [searchBracket, if_pos hcond], ?_⟩
        rcases List.mem_cons.mp hm with h1 | h2
        · exact Or.inl h1.symm
        rcases List.mem_cons.mp h2 with h3 | h4
        · exact Or.inr ⟨h3.symm, hab⟩
        · exfalso
          have hblt : b.1 < (t, v).1 :=
            (List.pairwise_cons.mp (List.pairwise_cons.mp hp).2).1 _ h4
          exact absurd hcond.2 (not_le.mpr hblt)
      · have hm' : (t, v) ∈ b :: l := by
          rcases List.mem_cons.mp hm with h1 | h2
          · exfalso
            have ha1 : a.1 = t := by rw [← h1]
            exact hcond ⟨le_of_eq ha1, le_of_lt (ha1 ▸ hab)⟩
          · exact h2
        have hlen' : 2 ≤ (b :: l).length := by
          cases l with
          | nil =>
            exfalso
            have h1 : (t, v) = b := by simpa using hm'
            have hbt : b.1 = t := by rw [← h1]
            exact hcond ⟨le_of_lt (hbt ▸ hab), le_of_eq hbt.symm⟩
          | cons c l' => simp
        obtain ⟨p, q, hsb, hd⟩ := ih (List.pairwise_cons.mp hp).2 hm' hlen'
        refine ⟨p, q, ?_, hd⟩
        simp only [searchBracket, if_neg hcond]
        exact hsb

theorem interpolateAt_mem {avail : List (Int × ℚ)} {t : Int} {v : ℚ}
    (hp : avail.Pairwise keyLt) (hm : (t, v) ∈ avail) :
    interpolateAt avail t = v := by
  cases avail with
  | nil => cases hm
  | cons a tail =>
    cases tail with
    | nil =>
      obtain rfl : a = (t, v) := (by simpa using hm : (t, v) = a).symm
      simp [interpolateAt, searchBracket]
    | cons b l =>
      obtain ⟨p, q, hsb, hd⟩ :=
        searchBracket_found hp hm (by simp [Nat.le_add_left])
      rcases hd with hdp | ⟨hdq, hlt⟩
      · subst hdp
        simp only [interpolateAt, hsb, Option.getD_some]
        by_cases hz : (q.1 : ℚ) - (((t, v) : Int × ℚ).1 : ℚ) = 0
        · simp [hz]
        · simp [hz]
      · subst hdq
        simp only [interpolateAt, hsb, Option.getD_some]
        have hzq : (((t, v) : Int × ℚ).1 : ℚ) - (p.1 : ℚ) ≠ 0 := by
          have hc : (p.1 : ℚ) < ((t : Int) : ℚ) := by exact_mod_cast hlt
          simp only []
          intro hcon
          rw [sub_eq_zero] at hcon
          exact absurd hc (not_lt.mpr (le_of_eq hcon))
        simp only [if_neg hzq]
        rw [div_self hzq]
        ring

theorem interpolateAt_outside {a : Int × ℚ} {rest : List (Int × ℚ)} {t : Int}
    (hp : (a :: rest).Pairwise keyLt)
    (hout : t < a.1 ∨ ((a :: rest).getLastD a).1 < t) :
    interpolateAt (a :: rest) t = extrapolateChord a ((a :: rest).getLastD a) t := by
  have hsb : searchBracket t (a :: rest) = none := by
    rcases hout with hlt | hgt
    · refine searchBracket_none_of_forall_lt (fun kv hkv => ?_)
      exact lt_of_lt_of_le hlt (pairwise_keyLt_head_le hp kv hkv)
    · refine searchBracket_none_of_forall_gt (fun kv hkv => ?_)
      exact lt_of_le_of_lt (pairwise_keyLt_le_getLastD hp kv hkv a) hgt
  simp only [interpolateAt, hsb, Option.getD_none]
  rfl

/-! ### Claim theorems -/

/-- Claim C1, amended: when the computed common-window start (the max of
the per-series minimum timestamps) exceeds the end (the min of the
per-series maximum timestamps), the aggregation does not fail: the
timeline loop generates no timestamps and the operation returns
successfully with an empty list of aligned points.  No InsufficientOverlap
error exists in the code. -/
theorem C1_no_overlap_returns_empty (priceDataList : List (List PricePoint))
    (ratioList : List ℚ) (interval : Interval)
    (h : listMin ((priceDataList.map (fun data => data.map PricePoint.ts)).map listMax) <
        listMax ((priceDataList.map (fun data => data.map PricePoint.ts)).map listMin)) :
    weightedAggregate priceDataList ratioList interval = Except.ok [] := by
  simp only [weightedAggregate]
  rw [genTimeline_eq_nil h]
  rfl

/-- Witness for claim C1: two series spanning [0,10] and [20,30] produce
the empty success result. -/
theorem C1_no_overlap_returns_empty_witness :
    listMin (([[PricePoint.mk 0 1, PricePoint.mk 10 2],
        [PricePoint.mk 20 3, PricePoint.mk 30 4]].map
          (fun data => data.map PricePoint.ts)).map listMax) <
      listMax (([[PricePoint.mk 0 1, PricePoint.mk 10 2],
        [PricePoint.mk 20 3, PricePoint.mk 30 4]].map
          (fun data => data.map PricePoint.ts)).map listMin) ∧
    weightedAggregate [[PricePoint.mk 0 1, PricePoint.mk 10 2],
        [PricePoint.mk 20 3, PricePoint.mk 30 4]] [1, 1] Interval.h24 = Except.ok [] :=
  ⟨by decide, C1_no_overlap_returns_empty _ _ _ (by decide)⟩

/-- Counterexample to claim C1 as stated: on the spec's own example
(series A spans [0,10], series B spans [20,30]) the full getWeightedPrices
entry point returns a successful, empty result instead of failing with an
InsufficientOverlap error. -/
theorem C1_counterexample :
    getWeightedPrices
      (fun symbol _ => if symbol = "A"
        then Except.ok [PricePoint.mk 0 1, PricePoint.mk 10 2]
        else Except.ok [PricePoint.mk 20 3, PricePoint.mk 30 4])
      ["A", "B"] [1, 1] Interval.h24 = Except.ok [] := by
  rfl

/-- Claim C4: a generated timestamp that coincides exactly with a known
in-window point of a series interpolates to exactly that point's value
(in the exact-rational model of JS numbers), including the degenerate
single-point bracket. -/
theorem C4_interpolation_exact (points : List PricePoint) (lo hi t : Int) (v : ℚ)
    (hm : (t, v) ∈ availOf points lo hi) :
    interpolateAt (availOf points lo hi) t = v :=
  interpolateAt_mem (availOf_pairwise points lo hi) hm

/-- Witness for claim C4: the point (10, 2) of a concrete series
interpolates to exactly 2. -/
theorem C4_interpolation_exact_witness :
    (10, (2 : ℚ)) ∈ availOf [PricePoint.mk 0 1, PricePoint.mk 10 2] 0 10 ∧
    interpolateAt (availOf [PricePoint.mk 0 1, PricePoint.mk 10 2] 0 10) 10 = 2 :=
  ⟨by decide, C4_interpolation_exact _ _ _ _ _ (by decide)⟩

/-- Claim C2, amended: for a generated timestamp t outside the available
in-window points of a series the code does not clamp to the nearest
boundary point; the defaulted lower and upper points are the first and
last available points and the interpolation formula then extrapolates
linearly along that chord (degenerating to the single point's value when
only one point is available). -/
theorem C2_outside_window_extrapolates (points : List PricePoint) (lo hi t : Int)
    (a : Int × ℚ) (rest : List (Int × ℚ))
    (heq : availOf points lo hi = a :: rest)
    (hout : t < a.1 ∨ ((a :: rest).getLastD a).1 < t) :
    interpolateAt (availOf points lo hi) t =
      extrapolateChord a ((a :: rest).getLastD a) t := by
  rw [heq]
  exact interpolateAt_outside (heq ▸ availOf_pairwise points lo hi) hout

/-- Witness for claim C2 (amended): a concrete series whose in-window
points are (400,1) and (1000,4), queried at t = 10. -/
theorem C2_outside_window_extrapolates_witness :
    availOf [PricePoint.mk 0 1, PricePoint.mk 400 1, PricePoint.mk 1000 4] 10 1000 =
      (400, (1 : ℚ)) :: [(1000, (4 : ℚ))] ∧
    (10 : Int) < 400 ∧
    interpolateAt
      (availOf [PricePoint.mk 0 1, PricePoint.mk 400 1, PricePoint.mk 1000 4] 10 1000) 10 =
      extrapolateChord (400, 1)
        (((400, (1 : ℚ)) :: [(1000, (4 : ℚ))]).getLastD (400, 1)) 10 :=
  ⟨by decide, by decide,
    C2_outside_window_extrapolates _ _ _ _ _ _ (by decide) (Or.inl (by decide))⟩

/-- Counterexample to claim C2 as stated: in a two-series aggregation the
second series has in-window points (400,1) and (1000,4) while the
generated timestamp is 10; the per-series value used is the chord
extrapolation -19/20, not the nearest-boundary value 1, and the weighted
output 141/40 differs from the 9/2 that clamping would give. -/
theorem C2_counterexample :
    interpolateAt [(400, 1), (1000, 4)] 10 = -19/20 ∧
    ((-19 : ℚ)/20 ≠ 1) ∧
    weightedAggregate
      [[PricePoint.mk 10 8, PricePoint.mk 1000 8],
        [PricePoint.mk 0 1, PricePoint.mk 400 1, PricePoint.mk 1000 4]]
      [1, 1] Interval.h24 = Except.ok [AlignedPoint.mk (141/40) 10] ∧
    ((141 : ℚ)/40 ≠ 9/2) := by
  refine ⟨by norm_num [interpolateAt, searchBracket], by norm_num, ?_, by norm_num⟩
  simp only [weightedAggregate, getTimeStep, listMin, listMax, buildMap, mapSet,
    List.foldl, List.map, List.zip, List.zipWith]
  norm_num
  have h1 : availOfMap [((10 : Int), (8 : ℚ)), (1000, 8)] 10 1000 =
      [(10, 8), (1000, 8)] := by decide
  have h2 : availOfMap [((0 : Int), (1 : ℚ)), (400, 1), (1000, 4)] 10 1000 =
      [(400, 1), (1000, 4)] := by decide
  have h3 : genTimeline 10 1000 300000 = [10] := by decide
  rw [h1, h2, h3]
  norm_num [List.mapM.loop, interpolateAt, searchBracket, listSum]
  split_ifs with hA hB hB
  · exact absurd hA (by simp)
  · exact absurd hA (by simp)
  · exact absurd hB (by simp)
  · norm_num
    rfl

/-- Claim C5, amended: the normalized weights sum to 1 within the 1e-9
tolerance for every raw weight vector that is either all-integer with
positive raw sum (the integer-percentage form, divided by the raw sum) or
fractional with raw sum already within tolerance of 1 (passed through
unchanged).  The all-zero integer vector forces the amendment: its raw
sum is 0 and the division produces no valid weights (NaN in JS). -/
theorem C5_normalized_sum (ratios : List ℚ)
    (h : (ratios.all jsIsInteger = true ∧ 0 < listSum ratios) ∨
        (ratios.all jsIsInteger = false ∧ |listSum ratios - 1| ≤ 1/1000000000)) :
    |listSum (processRatios ratios) - 1| ≤ 1/1000000000 := by
  rcases h with ⟨hall, hpos⟩ | ⟨hall, htol⟩
  · simp only [processRatios, hall, if_true]
    rw [listSum_map_div, div_self (ne_of_gt hpos)]
    norm_num
  · simp only [processRatios, hall, if_false]
    exact htol

/-- Witness for claim C5 (amended): the integer-percentage vector
[60, 40]. -/
theorem C5_normalized_sum_witness :
    (([60, 40] : List ℚ).all jsIsInteger = true ∧ 0 < listSum [60, 40]) ∧
    |listSum (processRatios [60, 40]) - 1| ≤ 1/1000000000 :=
  ⟨⟨by decide, by norm_num [listSum]⟩,
    C5_normalized_sum _ (Or.inl ⟨by decide, by norm_num [listSum]⟩)⟩

/-- Counterexample to claim C5 as stated: the all-zero vector [0, 0] is
non-negative and all-integer, yet the processed weights do not sum to 1
within tolerance.  In JS the division 0/0 makes every processed weight
NaN; the rational model renders that division as 0.  Under both readings
the sum is far outside the 1e-9 tolerance around 1. -/
theorem C5_counterexample :
    ¬ |listSum (processRatios [0, 0]) - 1| ≤ 1/1000000000 := by
  norm_num [processRatios, listSum, jsIsInteger]

/-- Claim C9: when the symbol count differs from the weight count, both
the aggregate and the pnl routes return the 400 count-mismatch client
error with an empty load log: no cache read or upstream fetch is
attempted. -/
theorem C9_count_mismatch_no_fetch (symbolList : List String) (rawRatios : List ℚ)
    (iv iv' : Option String) (oracle : LoadOracle)
    (hlen : symbolList.length ≠ (processRatios rawRatios).length) :
    aggregateHandler (Query.mk (some symbolList) (some rawRatios) iv) oracle =
      (RouteResult.clientError "Number of symbols must match number of ratios", []) ∧
    pnlHandler (Query.mk (some symbolList) (some rawRatios) iv') oracle =
      (RouteResult.clientError "Number of symbols must match number of ratios", []) := by
  constructor
  · simp [aggregateHandler, hlen]
  · simp [pnlHandler, hlen]

/-! ### Cache-invariant lemmas -/

theorem fetchPriceFromAlchemy_ok_ne_nil {upstream : Except String (List PricePoint)}
    {priceData : List PricePoint}
    (h : fetchPriceFromAlchemy upstream = Except.ok priceData) : priceData ≠ [] := by
  cases upstream with
  | error e => simp [fetchPriceFromAlchemy] at h
  | ok data =>
    by_cases he : data.isEmpty
    · simp [fetchPriceFromAlchemy, he] at h
    · simp only [fetchPriceFromAlchemy, if_neg he, Except.ok.injEq] at h
      subst h
      cases data with
      | nil => simp at he
      | cons p ps => exact List.cons_ne_nil p ps

theorem lookup_mem {κ β : Type} [BEq κ] [LawfulBEq κ] {k : κ} {v : β} :
    ∀ {m : List (κ × β)}, List.lookup k m = some v → (k, v) ∈ m := by
  intro m
  induction m with
  | nil => intro h; simp [List.lookup] at h
  | cons hd tl ih =>
    obtain ⟨k', v'⟩ := hd
    intro h
    cases hbeq : k == k' with
    | true =>
      simp only [List.lookup, hbeq, Option.some.injEq] at h
      have hk : k = k' := eq_of_beq hbeq
      subst hk
      subst h
      exact List.mem_cons_self _ _
    | false =>
      simp only [List.lookup, hbeq] at h
      exact List.mem_cons_of_mem _ (ih h)

theorem cachePut_WF {c : Cache} (hc : CacheWF c) {key : String}
    {priceData : List PricePoint} (hd : priceData ≠ []) :
    CacheWF (cachePut c key priceData) := by
  intro kv hkv
  rcases mem_mapSet hkv with h1 | h2
  · rw [h1]; exact hd
  · exact hc kv h2

theorem cacheGet_WF {c : Cache} (hc : CacheWF c) {key : String}
    {priceData : List PricePoint} (h : cacheGet c key = some priceData) :
    priceData ≠ [] :=
  hc (key, priceData) (lookup_mem h)

theorem runOp_WF {c : Cache} (hc : CacheWF c) (op : CacheOp) : CacheWF (runOp c op) := by
  cases op with
  | load symbol interval upstream =>
    simp only [runOp, loadSeries]
    cases hget : cacheGet c (generateCacheKey symbol interval) with
    | some priceData => exact hc
    | none =>
      cases hfetch : fetchPriceFromAlchemy upstream with
      | error e => exact hc
      | ok priceData => exact cachePut_WF hc (fetchPriceFromAlchemy_ok_ne_nil hfetch)
  | refresh symbol interval upstream =>
    simp only [runOp, refreshSeries]
    cases hfetch : fetchPriceFromAlchemy upstream with
    | error e => exact hc
    | ok priceData => exact cachePut_WF hc (fetchPriceFromAlchemy_ok_ne_nil hfetch)

theorem runOps_WF {c : Cache} (hc : CacheWF c) (ops : List CacheOp) :
    CacheWF (runOps c ops) := by
  induction ops generalizing c with
  | nil => exact hc
  | cons op ops ih => exact ih (runOp_WF hc op)

/-- Claim C10: the only cache-write paths (the cache-or-fetch load used by
the routes and the scheduled refresh) store results of the validated
fetch, which rejects empty payloads; hence from a well-formed cache every
reachable cache is well-formed and every cache hit yields a series with at
least one point. -/
theorem C10_cached_series_nonempty (c : Cache) (hc : CacheWF c) (ops : List CacheOp) :
    CacheWF (runOps c ops) ∧
    ∀ key priceData, cacheGet (runOps c ops) key = some priceData →
      priceData ≠ [] := by
  refine ⟨runOps_WF hc ops, fun key priceData h => ?_⟩
  exact cacheGet_WF (runOps_WF hc ops) h

/-- Witness for claim C10: from the empty cache, after one load of BTC/30d
whose upstream fetch returns one point, the cache hit for that key is the
non-empty stored series. -/
theorem C10_cached_series_nonempty_witness :
    CacheWF ([] : Cache) ∧ [PricePoint.mk 0 1] ≠ ([] : List PricePoint) :=
  ⟨by simp [CacheWF],
    (C10_cached_series_nonempty [] (by simp [CacheWF])
        [CacheOp.load "BTC" Interval.d30 (Except.ok [PricePoint.mk 0 1])]).2
      "price:BTC:30d" [PricePoint.mk 0 1] (by decide)⟩

/-! ### Single-series aggregation lemmas -/

theorem listMin_singleton (x : Int) : listMin [x] = x :=
  rfl

theorem listMax_singleton (x : Int) : listMax [x] = x :=
  rfl

theorem insertionSort_keyLe_ne_nil {l : List (Int × ℚ)} (h : l ≠ []) :
    List.insertionSort keyLe l ≠ [] := by
  intro hcon
  apply h
  have hlen := List.length_insertionSort keyLe l
  rw [hcon] at hlen
  exact List.length_eq_zero.mp hlen.symm

theorem availOf_own_range {s : List PricePoint} :
    availOf s (listMin (s.map PricePoint.ts)) (listMax (s.map PricePoint.ts)) =
      List.insertionSort keyLe (buildMap s) := by
  unfold availOf availOfMap
  congr 1
  apply List.filter_eq_self.mpr
  intro kv hkv
  have hk := buildMap_key_mem hkv
  simp only [inWindow, Bool.and_eq_true, decide_eq_true_eq]
  exact ⟨listMin_le hk, le_listMax hk⟩

/-- Claim C8: aggregating one non-empty series with the unit weight
reproduces that series restricted to its own range (a no-op restriction)
resampled on the regular timeline, each value being the direct
interpolation of the original series at that timestamp. -/
theorem C8_single_series_identity (s : List PricePoint) (hne : s ≠ []) (interval : Interval) :
    weightedAggregate [s] [1] interval =
      Except.ok ((genTimeline (listMin (s.map PricePoint.ts))
          (listMax (s.map PricePoint.ts)) (getTimeStep interval)).map
        (fun t => AlignedPoint.mk
          (interpolateAt (List.insertionSort keyLe (buildMap s)) t) t)) ∧
    availOf s (listMin (s.map PricePoint.ts)) (listMax (s.map PricePoint.ts)) =
      List.insertionSort keyLe (buildMap s) := by
  refine ⟨?_, availOf_own_range⟩
  have hnonempty : List.insertionSort keyLe (buildMap s) ≠ [] :=
    insertionSort_keyLe_ne_nil (buildMap_ne_nil hne)
  have hempty : (List.insertionSort keyLe (buildMap s)).isEmpty = false := by
    cases hh : List.insertionSort keyLe (buildMap s) with
    | nil => exact absurd hh hnonempty
    | cons a l => rfl
  have hsum : listSum [(1 : ℚ)] = 1 := by norm_num [listSum]
  simp only [weightedAggregate, List.map_cons, List.map_nil, listMax_singleton,
    listMin_singleton]
  apply mapM_eq_ok_map
  intro t ht
  have havail : availOfMap (buildMap s) (listMin (s.map PricePoint.ts))
      (listMax (s.map PricePoint.ts)) = List.insertionSort keyLe (buildMap s) :=
    availOf_own_range
  simp only [List.zip_cons_cons, List.zip_nil_right, List.foldlM_cons, List.foldlM_nil,
    havail, hempty, hsum, Bool.false_eq_true, if_false, mul_one, div_one, zero_add]
  rfl

/-- Claim C6: the pnl route destructures only symbols and ratios, so its
outcome is identical for any caller-supplied interval, and on a non-empty
aggregate with nonzero first value it returns
pnl = (last - first) / first * 100 with first and last taken positionally
from the series aggregated over the hard-coded 30d interval. -/
theorem C6_pnl_long_interval_formula (oracle : LoadOracle) (symbolList : List String)
    (rawRatios : List ℚ) (iv iv' : Option String) (first : AlignedPoint)
    (rest : List AlignedPoint)
    (hlen : symbolList.length = (processRatios rawRatios).length)
    (hagg : getWeightedPrices oracle symbolList (processRatios rawRatios) Interval.d30 =
      Except.ok (first :: rest))
    (hfz : first.value ≠ 0) :
    pnlHandler (Query.mk (some symbolList) (some rawRatios) iv) oracle =
      pnlHandler (Query.mk (some symbolList) (some rawRatios) iv') oracle ∧
    pnlHandler (Query.mk (some symbolList) (some rawRatios) iv) oracle =
      (RouteResult.ok (PnlPayload.mk
          (some ((((first :: rest).getLastD first).value - first.value) / first.value * 100))
          first.value (((first :: rest).getLastD first).value)
          first.timestamp (((first :: rest).getLastD first).timestamp)),
        issuedLoads symbolList Interval.d30) := by
  have hcond : ¬(symbolList.length ≠ (processRatios rawRatios).length) := by simp [hlen]
  refine ⟨rfl, ?_⟩
  simp only [pnlHandler, if_neg hcond, hagg, if_neg hfz]

/-- Claim C3, amended: the pnl route has no DivisionByZero check; when the
first aggregated value is exactly zero the JS division yields a non-finite
number (modelled as pnl = none) inside a successful 200 response, instead
of any error. -/
theorem C3_zero_baseline_nonfinite (oracle : LoadOracle) (symbolList : List String)
    (rawRatios : List ℚ) (iv : Option String) (first : AlignedPoint)
    (rest : List AlignedPoint)
    (hlen : symbolList.length = (processRatios rawRatios).length)
    (hagg : getWeightedPrices oracle symbolList (processRatios rawRatios) Interval.d30 =
      Except.ok (first :: rest))
    (hfz : first.value = 0) :
    pnlHandler (Query.mk (some symbolList) (some rawRatios) iv) oracle =
      (RouteResult.ok (PnlPayload.mk none
          first.value (((first :: rest).getLastD first).value)
          first.timestamp (((first :: rest).getLastD first).timestamp)),
        issuedLoads symbolList Interval.d30) := by
  have hcond : ¬(symbolList.length ≠ (processRatios rawRatios).length) := by simp [hlen]
  simp only [pnlHandler, if_neg hcond, hagg, if_pos hfz]

/-- Concrete evaluation: a single 30d series [(0,2), (86400000,3)] with
unit weight aggregates to itself. -/
theorem gwpExampleNonzero_eval :
    getWeightedPrices
      (fun symbol _ => if symbol = "A"
        then Except.ok [PricePoint.mk 0 2, PricePoint.mk 86400000 3]
        else Except.error "unused")
      ["A"] (processRatios [1]) Interval.d30 =
    Except.ok [AlignedPoint.mk 2 0, AlignedPoint.mk 3 86400000] := by
  have hp : processRatios [(1 : ℚ)] = [1] := by
    norm_num [processRatios, jsIsInteger, listSum]
  rw [hp]
  norm_num [getWeightedPrices, loadAll, List.mapM.loop]
  simp only [weightedAggregate, getTimeStep, listMin, listMax, buildMap, mapSet,
    List.foldl, List.map, List.zip, List.zipWith]
  norm_num
  have h1 : availOfMap [((0 : Int), (2 : ℚ)), (86400000, 3)] 0 86400000 =
      [(0, 2), (86400000, 3)] := by decide
  have h3 : genTimeline 0 86400000 86400000 = [0, 86400000] := by decide
  rw [h1, h3]
  norm_num [List.mapM.loop, interpolateAt, searchBracket, listSum]
  split_ifs with hA hB hB
  · exact absurd hA (by simp)
  · exact absurd hA (by simp)
  · exact absurd hB (by simp)
  · rfl

/-- Concrete evaluation: a single 30d series [(0,0), (86400000,5)] with
unit weight aggregates to itself; its first value is zero. -/
theorem gwpExampleZero_eval :
    getWeightedPrices
      (fun symbol _ => if symbol = "A"
        then Except.ok [PricePoint.mk 0 0, PricePoint.mk 86400000 5]
        else Except.error "unused")
      ["A"] (processRatios [1]) Interval.d30 =
    Except.ok [AlignedPoint.mk 0 0, AlignedPoint.mk 5 86400000] := by
  have hp : processRatios [(1 : ℚ)] = [1] := by
    norm_num [processRatios, jsIsInteger, listSum]
  rw [hp]
  norm_num [getWeightedPrices, loadAll, List.mapM.loop]
  simp only [weightedAggregate, getTimeStep, listMin, listMax, buildMap, mapSet,
    List.foldl, List.map, List.zip, List.zipWith]
  norm_num [-Prod.mk_zero_zero]
  have h1 : availOfMap [((0 : Int), (0 : ℚ)), (86400000, 5)] 0 86400000 =
      [(0, 0), (86400000, 5)] := by decide
  have h3 : genTimeline 0 86400000 86400000 = [0, 86400000] := by decide
  rw [h1, h3]
  norm_num [-Prod.mk_zero_zero, List.mapM.loop, interpolateAt, searchBracket, listSum]
  split_ifs with hA hB hB
  · exact absurd hA (by simp)
  · exact absurd hA (by simp)
  · exact absurd hB (by simp)
  · rfl

/-- Witness for claim C6: a concrete one-symbol portfolio rising from 2
to 3 gives pnl 50, identically for two different caller intervals. -/
theorem C6_pnl_long_interval_formula_witness :
    ((["A"] : List String).length = (processRatios [1]).length ∧
      (AlignedPoint.mk (2 : ℚ) 0).value ≠ 0) ∧
    (pnlHandler (Query.mk (some ["A"]) (some [1]) (some "24h"))
        (fun symbol _ => if symbol = "A"
          then Except.ok [PricePoint.mk 0 2, PricePoint.mk 86400000 3]
          else Except.error "unused") =
      pnlHandler (Query.mk (some ["A"]) (some [1]) none)
        (fun symbol _ => if symbol = "A"
          then Except.ok [PricePoint.mk 0 2, PricePoint.mk 86400000 3]
          else Except.error "unused") ∧
    pnlHandler (Query.mk (some ["A"]) (some [1]) (some "24h"))
        (fun symbol _ => if symbol = "A"
          then Except.ok [PricePoint.mk 0 2, PricePoint.mk 86400000 3]
          else Except.error "unused") =
      (RouteResult.ok (PnlPayload.mk (some ((3 - 2) / 2 * 100)) 2 3 0 86400000),
        issuedLoads ["A"] Interval.d30)) :=
  ⟨⟨by norm_num [processRatios, jsIsInteger, listSum], by norm_num⟩,
    C6_pnl_long_interval_formula _ _ _ _ _ _ _
      (by norm_num [processRatios, jsIsInteger, listSum])
      gwpExampleNonzero_eval (by norm_num)⟩

/-- Witness for claim C3 (amended): the zero-baseline series returns a 200
whose pnl is the non-finite marker. -/
theorem C3_zero_baseline_nonfinite_witness :
    ((["A"] : List String).length = (processRatios [1]).length ∧
      (AlignedPoint.mk (0 : ℚ) 0).value = 0) ∧
    pnlHandler (Query.mk (some ["A"]) (some [1]) none)
        (fun symbol _ => if symbol = "A"
          then Except.ok [PricePoint.mk 0 0, PricePoint.mk 86400000 5]
          else Except.error "unused") =
      (RouteResult.ok (PnlPayload.mk none 0 5 0 86400000),
        issuedLoads ["A"] Interval.d30) :=
  ⟨⟨by norm_num [processRatios, jsIsInteger, listSum], by norm_num⟩,
    C3_zero_baseline_nonfinite _ _ _ _ _ _
      (by norm_num [processRatios, jsIsInteger, listSum])
      gwpExampleZero_eval (by norm_num)⟩

/-- Counterexample to claim C3 as stated: with an aggregated series whose
first value is exactly zero the pnl route does not fail with any
DivisionByZero error; it returns a 200 response whose pnl is the
non-finite JS quotient (Infinity or NaN, modelled none). -/
theorem C3_counterexample :
    pnlHandler (Query.mk (some ["A"]) (some [1]) none)
      (fun symbol _ => if symbol = "A"
        then Except.ok [PricePoint.mk 0 0, PricePoint.mk 86400000 5]
        else Except.error "unused") =
    (RouteResult.ok (PnlPayload.mk none 0 5 0 86400000), [("A", Interval.d30)]) := by
  have hcond : ¬((["A"] : List String).length ≠ (processRatios [1]).length) := by
    norm_num [processRatios, jsIsInteger, listSum]
  simp only [pnlHandler, if_neg hcond, gwpExampleZero_eval]
  norm_num [List.getLastD, issuedLoads]

/-- Witness for claim C8: the series [(0,1), (10,3)] with weight vector
[1] over the 24h step. -/
theorem C8_single_series_identity_witness :
    ([PricePoint.mk 0 1, PricePoint.mk 10 3] ≠ ([] : List PricePoint)) ∧
    (weightedAggregate [[PricePoint.mk 0 1, PricePoint.mk 10 3]] [1] Interval.h24 =
      Except.ok ((genTimeline
          (listMin ([PricePoint.mk 0 1, PricePoint.mk 10 3].map PricePoint.ts))
          (listMax ([PricePoint.mk 0 1, PricePoint.mk 10 3].map PricePoint.ts))
          (getTimeStep Interval.h24)).map
        (fun t => AlignedPoint.mk
          (interpolateAt (List.insertionSort keyLe
            (buildMap [PricePoint.mk 0 1, PricePoint.mk 10 3])) t) t)) ∧
      availOf [PricePoint.mk 0 1, PricePoint.mk 10 3]
          (listMin ([PricePoint.mk 0 1, PricePoint.mk 10 3].map PricePoint.ts))
          (listMax ([PricePoint.mk 0 1, PricePoint.mk 10 3].map PricePoint.ts)) =
        List.insertionSort keyLe (buildMap [PricePoint.mk 0 1, PricePoint.mk 10 3])) :=
  ⟨by decide, C8_single_series_identity _ (by decide) _⟩

/-! ### Record-building lemmas for the batch route -/

theorem lookup_mapSet_self {κ β : Type} [DecidableEq κ] [BEq κ] [LawfulBEq κ]
    (k : κ) (v : β) : ∀ (m : List (κ × β)), List.lookup k (mapSet m k v) = some v := by
  intro m
  induction m with
  | nil => simp [mapSet, List.lookup]
  | cons hd tl ih =>
    obtain ⟨k', v'⟩ := hd
    by_cases hk : k' = k
    · simp [mapSet, hk, List.lookup]
    · have hbeq : (k == k') = false := by
        simp only [beq_eq_false_iff_ne, ne_eq]
        exact fun he => hk he.symm
      simp only [mapSet, if_neg hk, List.lookup, hbeq]
      exact ih

theorem lookup_mapSet_ne {κ β : Type} [DecidableEq κ] [BEq κ] [LawfulBEq κ]
    {k k' : κ} (hne : k ≠ k') (v : β) :
    ∀ (m : List (κ × β)), List.lookup k (mapSet m k' v) = List.lookup k m := by
  have hbeq : (k == k') = false := by simpa [beq_eq_false_iff_ne]
  intro m
  induction m with
  | nil => simp [mapSet, List.lookup, hbeq]
  | cons hd tl ih =>
    obtain ⟨k'', v''⟩ := hd
    by_cases hk : k'' = k'
    · subst hk
      simp [mapSet, List.lookup, hbeq]
    · simp only [mapSet, if_neg hk, List.lookup]
      cases hb : k == k'' with
      | true => rfl
      | false => exact ih

theorem lookup_fold_insert {γ : Type} (f : γ → String) (g : γ → ℚ) :
    ∀ (l : List γ) (acc : List (String × ℚ)) (x : γ), x ∈ l →
      l.Pairwise (fun a b => f a ≠ f b) →
      List.lookup (f x) (l.foldl (fun m y => mapSet m (f y) (g y)) acc) = some (g x) := by
  have hnotmem : ∀ (l : List γ) (acc : List (String × ℚ)) (k : String),
      (∀ y ∈ l, k ≠ f y) →
      List.lookup k (l.foldl (fun m y => mapSet m (f y) (g y)) acc) =
        List.lookup k acc := by
    intro l
    induction l with
    | nil => intro acc k _; rfl
    | cons y l ih =>
      intro acc k hk
      simp only [List.foldl_cons]
      rw [ih _ k (fun z hz => hk z (List.mem_cons_of_mem _ hz))]
      exact lookup_mapSet_ne (hk y (List.mem_cons_self _ _)) _ _
  intro l
  induction l with
  | nil => intro acc x hx; cases hx
  | cons y l ih =>
    intro acc x hx hp
    simp only [List.foldl_cons]
    rcases List.mem_cons.mp hx with h1 | h2
    · subst h1
      rw [hnotmem l _ (f x) (fun z hz => (List.pairwise_cons.mp hp).1 z hz)]
      exact lookup_mapSet_self _ _ _
    · exact ih _ x h2 (List.pairwise_cons.mp hp).2

theorem mem_fold_insert {γ : Type} (f : γ → String) (g : γ → ℚ) :
    ∀ (l : List γ) (acc : List (String × ℚ)) (kv : String × ℚ),
      kv ∈ l.foldl (fun m y => mapSet m (f y) (g y)) acc →
      kv ∈ acc ∨ kv.1 ∈ l.map f := by
  intro l
  induction l with
  | nil => intro acc kv h; exact Or.inl (by simpa using h)
  | cons y l ih =>
    intro acc kv h
    simp only [List.foldl_cons] at h
    rcases ih _ kv h with h1 | h2
    · rcases mem_mapSet h1 with h3 | h4
      · subst h3; right; simp
      · exact Or.inl h4
    · right; simp [h2]

theorem mapM_loop_ok_length {γ δ : Type} {f : γ → Except String δ} :
    ∀ (l : List γ) (acc res : List δ),
      List.mapM.loop f l acc = Except.ok res → res.length = l.length + acc.length := by
  intro l
  induction l with
  | nil =>
    intro acc res h
    simp only [List.mapM.loop] at h
    cases h
    simp
  | cons x xs ih =>
    intro acc res h
    simp only [List.mapM.loop] at h
    cases hf : f x with
    | error e =>
      rw [hf] at h
      exact Except.noConfusion h
    | ok b =>
      rw [hf] at h
      have hlen := ih (b :: acc) res h
      simp only [List.length_cons] at hlen ⊢
      omega

theorem loadAll_length {oracle : LoadOracle} {interval : Interval}
    {symbolList : List String} {dataList : List (List PricePoint)}
    (h : loadAll oracle symbolList interval = Except.ok dataList) :
    dataList.length = symbolList.length := by
  have hlen := mapM_loop_ok_length symbolList [] dataList h
  simpa using hlen

/-- Claim C7: for non-empty loaded series, the batch route reports as its
top-level timestamp the maximum over all series of the positional last
point's timestamp, maps each lowercased symbol to its series' positional
last value, and every key in the output is a lowercased symbol. -/
theorem C7_batch_snapshot (oracle : LoadOracle) (symbolList : List String)
    (ivs : Option String) (interval : Interval) (dataList : List (List PricePoint))
    (hiv : parseInterval (ivs.getD "24h") = some interval)
    (hload : loadAll oracle symbolList interval = Except.ok dataList)
    (hne : ∀ d ∈ dataList, d ≠ ([] : List PricePoint))
    (hnd : (symbolList.map jsToLower).Pairwise (fun a b => a ≠ b)) :
    ∃ values,
      batchHandler (Query.mk (some symbolList) none ivs) oracle =
        (RouteResult.ok (BatchPayload.mk values
            (listMax (dataList.map (fun d => (d.getLastD (PricePoint.mk 0 0)).ts)))),
          issuedLoads symbolList interval) ∧
      (∀ sp ∈ symbolList.zip dataList,
        List.lookup (jsToLower sp.1) values =
          some ((sp.2.getLastD (PricePoint.mk 0 0)).value)) ∧
      (∀ kv ∈ values, kv.1 ∈ symbolList.map jsToLower) := by
  have hlen : dataList.length = symbolList.length := loadAll_length hload
  have hany : dataList.any List.isEmpty = false := by
    rw [List.any_eq_false]
    intro d hd
    cases hdn : d with
    | nil => exact absurd hdn (hne d hd)
    | cons p ps => simp
  have hfst : (symbolList.zip dataList).map Prod.fst = symbolList :=
    List.map_fst_zip _ _ (le_of_eq hlen.symm)
  have hpzip : (symbolList.zip dataList).Pairwise
      (fun a b => jsToLower a.1 ≠ jsToLower b.1) := by
    have h1 : symbolList.Pairwise (fun a b => jsToLower a ≠ jsToLower b) :=
      List.Pairwise.of_map jsToLower (fun a b hab => hab) hnd
    have h2 : ((symbolList.zip dataList).map Prod.fst).Pairwise
        (fun a b => jsToLower a ≠ jsToLower b) := by
      rw [hfst]
      exact h1
    exact List.Pairwise.of_map Prod.fst (fun a b hab => hab) h2
  refine ⟨(symbolList.zip dataList).foldl
      (fun acc sp => mapSet acc (jsToLower sp.1)
        ((sp.2.getLastD (PricePoint.mk 0 0)).value)) [], ?_, ?_, ?_⟩
  · simp only [batchHandler, hiv, hload, hany, Bool.false_eq_true, if_false]
  · intro sp hsp
    exact lookup_fold_insert (fun sp => jsToLower sp.1)
      (fun sp => ((sp.2).getLastD (PricePoint.mk 0 0)).value)
      (symbolList.zip dataList) [] sp hsp hpzip
  · intro kv hkv
    rcases mem_fold_insert (fun sp => jsToLower sp.1)
      (fun sp => ((sp.2).getLastD (PricePoint.mk 0 0)).value)
      (symbolList.zip dataList) [] kv hkv with h1 | h2
    · cases h1
    · have hmm : (symbolList.zip dataList).map (fun sp => jsToLower sp.1) =
          symbolList.map jsToLower := by
        have hc := congrArg (List.map jsToLower) hfst
        rw [← hc, List.map_map]
        rfl
      rw [hmm] at h2
      exact h2

/-- Witness for claim C9: symbols [A, B] with the single fractional
ratio 0.5. -/
theorem C9_count_mismatch_no_fetch_witness :
    (["A", "B"].length ≠ (processRatios [1/2]).length) ∧
    (aggregateHandler (Query.mk (some ["A", "B"]) (some [1/2]) none)
        (fun _ _ => Except.error "unused") =
      (RouteResult.clientError "Number of symbols must match number of ratios", []) ∧
    pnlHandler (Query.mk (some ["A", "B"]) (some [1/2]) none)
        (fun _ _ => Except.error "unused") =
      (RouteResult.clientError "Number of symbols must match number of ratios", [])) :=
  ⟨by norm_num [processRatios, jsIsInteger],
    C9_count_mismatch_no_fetch _ _ _ _ _ (by norm_num [processRatios, jsIsInteger])⟩

theorem C7_batch_snapshot_witness :
    (parseInterval ((none : Option String).getD "24h") = some Interval.h24 ∧
      loadAll (fun symbol _ => if symbol = "A"
          then Except.ok [PricePoint.mk 100 10] else Except.ok [PricePoint.mk 90 5])
        ["A", "B"] Interval.h24 =
        Except.ok [[PricePoint.mk 100 10], [PricePoint.mk 90 5]] ∧
      (∀ d ∈ [[PricePoint.mk 100 10], [PricePoint.mk 90 5]], d ≠ ([] : List PricePoint)) ∧
      ((["A", "B"].map jsToLower).Pairwise (fun a b => a ≠ b))) ∧
    (∃ values,
      batchHandler (Query.mk (some ["A", "B"]) none none)
          (fun symbol _ => if symbol = "A"
            then Except.ok [PricePoint.mk 100 10] else Except.ok [PricePoint.mk 90 5]) =
        (RouteResult.ok (BatchPayload.mk values
            (listMax ([[PricePoint.mk 100 10], [PricePoint.mk 90 5]].map
              (fun d => (d.getLastD (PricePoint.mk 0 0)).ts)))),
          issuedLoads ["A", "B"] Interval.h24) ∧
      (∀ sp ∈ ["A", "B"].zip [[PricePoint.mk 100 10], [PricePoint.mk 90 5]],
        List.lookup (jsToLower sp.1) values =
          some ((sp.2.getLastD (PricePoint.mk 0 0)).value)) ∧
      (∀ kv ∈ values, kv.1 ∈ ["A", "B"].map jsToLower)) :=
  ⟨⟨by decide, by decide, by decide, by decide⟩,
    C7_batch_snapshot _ _ _ _ _ (by decide) (by decide) (by decide) (by decide)⟩

end PriceWorker
